import Mathlib

/-!
Verification of the staged batch pipeline of the LinguisticEvolution repository.

The development shallowly embeds the pipeline core:
  * `refine_batch.py`: `retry_with_exponential_backoff`, `BatchRefiner`
    (`load_propositions_from_folder`, `refine_proposition`, `refine_batch`);
  * `control.py`: `PropositionController`
    (`count_completed_propositions`, `generate_batch`,
    `refine_batch_through_stages`, `run`).

File contents are modelled as parsed JSON values (`JsonVal`); a stage
directory is an association list from filename to file content.  The remote
text service is abstracted as an oracle (`Env`) giving the outcome of each
remote call; exceptions are modelled with `Except`/`Option` error values.
Sleeping and log text are irrelevant to the claims except for their counts,
which are tracked where needed.
-/

namespace LingEvo

/-! ### Characters, decimal rendering, and filename helpers

`control.py` builds batch filenames with the Python format string
`f"batch_{batch_num:03d}.json"`: the decimal digits of the batch number,
zero-padded on the left to width at least 3.  We render digits through a
structurally recursive digit function so that everything evaluates, and
bridge it to `Nat.digits` for proofs.
-/

/-- Decimal digit character (`0`--`9`). -/
def decChar (d : Nat) : Char := Char.ofNat (48 + d)

/-- Inverse of `decChar` on digit values. -/
def decVal (c : Char) : Nat := c.toNat - 48

/-- Little-endian decimal digits of `n` (empty for `0`), with explicit fuel
so the kernel can reduce it. -/
def natDigitsAux : Nat → Nat → List Nat
  | _, 0 => []
  | 0, _ => []
  | f + 1, n + 1 => (n + 1) % 10 :: natDigitsAux f ((n + 1) / 10)

/-- Little-endian decimal digits of `n`. -/
def natDigits (n : Nat) : List Nat := natDigitsAux n n

/-- Little-endian digits of `n`, zero-padded (at the most significant end)
to length at least 3: the digit list of Python's `f"{n:03d}"`. -/
def pad3digits (n : Nat) : List Nat :=
  natDigits n ++ List.replicate (3 - (natDigits n).length) 0

/-- Python `f"{n:03d}"`: zero-padded decimal rendering of `n`. -/
def pad3 (n : Nat) : String := ⟨((pad3digits n).reverse.map decChar)⟩

/-- Python `str(n)` for a natural number (plain decimal rendering). -/
def decStr (n : Nat) : String :=
  if n = 0 then "0" else ⟨((natDigits n).reverse.map decChar)⟩

/-- The filename `control.py` uses for batch `b` in every stage directory:
`f"batch_{b:03d}.json"` (lines 85, 100). -/
def batchFilename (b : Nat) : String := "batch_" ++ pad3 b ++ ".json"

/-- The name of the per-batch temporary folder `f"temp_input_{b}"`
(`control.py` line 116). -/
def tempFolderName (b : Nat) : String := "temp_input_" ++ decStr b

/-- Boolean list-prefix test (used to build the string tests below). -/
def listPrefixOf : List Char → List Char → Bool
  | [], _ => true
  | _ :: _, [] => false
  | a :: as, b :: bs => a == b && listPrefixOf as bs

/-- Boolean list-infix test. -/
def listInfixOf (p : List Char) : List Char → Bool
  | [] => listPrefixOf p []
  | l@(_ :: ls) => listPrefixOf p l || listInfixOf p ls

/-- `s` ends with `post` (models Python `str.endswith` / the `"*.json"`
suffix of a glob pattern). -/
def strEndsWith (s post : String) : Bool :=
  listPrefixOf post.data.reverse s.data.reverse

/-- `s` starts with `pre`. -/
def strStartsWith (s pre : String) : Bool := listPrefixOf pre.data s.data

/-- Python `str.strip()` on the ASCII whitespace the pipeline can meet. -/
def isSpaceChar (c : Char) : Bool := c == ' ' || c == '\t' || c == '\n' || c == '\r'

/-- Python `str.strip()`: drop whitespace from both ends. -/
def strStrip (s : String) : String :=
  ⟨((s.data.dropWhile isSpaceChar).reverse.dropWhile isSpaceChar).reverse⟩

/-- Does `name` match the glob pattern `f"batch_*{mid}*.json"` used as the
fallback batch-file lookup in `control.py` line 129?  The pattern matches
names that start with `batch_`, end with `.json`, and contain `mid` in
between. -/
def globMatchBatch (mid : String) (name : String) : Bool :=
  strStartsWith name "batch_" && strEndsWith name ".json" &&
    (let inner := name.data.drop 6
     listInfixOf mid.data (inner.take (inner.length - 5)))

/-! ### Parsed JSON values and stage directories -/

/-- A parsed JSON value, as far as the pipeline inspects one: strings,
sequences, and objects (dicts).  `json.load` in the sources produces such
values; the pipeline never constructs numbers or booleans. -/
inductive JsonVal : Type
  | str (s : String)
  | arr (elems : List JsonVal)
  | obj (fields : List (String × JsonVal))

/-- A stage directory: an association list from filename to parsed file
content, in directory order (the order `Path.glob` yields entries). -/
abbrev Dir := List (String × JsonVal)

/-- Directory lookup by filename (`Path.exists` + reading the file). -/
def dirGet : Dir → String → Option JsonVal
  | [], _ => none
  | p :: ps, name => if p.1 = name then some p.2 else dirGet ps name

/-- Writing a file: `open(path, 'w')` overwrites any file of that name. -/
def dirInsert : Dir → String → JsonVal → Dir
  | [], name, v => [(name, v)]
  | p :: ps, name, v =>
    if p.1 = name then dirInsert ps name v else p :: dirInsert ps name v

/-- `folder.glob("*.json")`: the directory entries with a `.json` name, in
directory order. -/
def jsonFiles (d : Dir) : Dir := d.filter fun p => strEndsWith p.1 ".json"

/-- Insertion step for sorting a directory listing by filename. -/
def insertSorted (x : String × JsonVal) : Dir → Dir
  | [] => [x]
  | y :: ys => if x.1 ≤ y.1 then x :: y :: ys else y :: insertSorted x ys

/-- `sorted(...)` over a directory listing, by filename. -/
def sortByName (d : Dir) : Dir := d.foldr insertSorted []

/-- The item sequence a single file contributes: a list file contributes its
elements, any other value is a single record (`refine_batch.py` lines
90-94, `control.py` lines 60-63). -/
def toItems : JsonVal → List JsonVal
  | .arr l => l
  | v => [v]

/-- Number of items a file contributes to the progress count
(`control.py` lines 60-63). -/
def itemCount : JsonVal → Nat
  | .arr l => l.length
  | _ => 1

/-- Is the value the empty JSON sequence `[]`? -/
def isEmptyArr : JsonVal → Bool
  | .arr [] => true
  | _ => false

/-! ### Python-level errors -/

/-- The failures that matter to the pipeline model: a missing/empty input
folder (`FileNotFoundError`), a missing dict key (`KeyError`) or non-dict
indexing (`TypeError`), and a remote-service failure that has exhausted the
retry policy. -/
inductive PyErr : Type
  | fileNotFound
  | keyError (key : String)
  | typeError
  | remoteFailure (code : Nat)
  deriving DecidableEq, Repr

/-- Python `value[key]` on parsed JSON: field lookup in a dict, `KeyError`
if absent, `TypeError` if `value` is not a dict. -/
def jget (v : JsonVal) (key : String) : Except PyErr JsonVal :=
  match v with
  | .obj fields =>
    match fields.find? (fun p => p.1 == key) with
    | some p => .ok p.2
    | none => .error (.keyError key)
  | _ => .error .typeError

/-! ### `retry_with_exponential_backoff` (`refine_batch.py` lines 25-61)

The wrapped operation is abstracted as an oracle `op : Nat → Except Exn α`
giving the outcome of its `i`-th invocation (0-based).  The wrapper's loop
`for attempt in range(max_retries)` calls the operation once per iteration;
`except RateLimitError` and `except APIError` catch, and unless the
iteration is the last one (`attempt == max_retries - 1`, which re-raises)
the wrapper prints a warning, sleeps, and retries; an exception outside the
`APIError` class propagates uncaught.  In the `anthropic` SDK,
`RateLimitError` and the fatal request errors (`BadRequestError` etc.) are
all subclasses of `APIError`; the first clause catches exactly
`RateLimitError`, and the second catches every *other* `APIError` —
transient or fatal alike.  The call `return func(*args, **kwargs)` after
the loop (line 59) runs only when the loop body never executed, i.e. when
`max_retries = 0`.  Sleep durations and jitter affect only how long the
sleeps are, not the control flow, so the model records how many sleeps and
warning lines occur, not their values. -/

/-- Exceptions distinguished by the retry wrapper, mirroring the SDK's
class hierarchy as the two `except` clauses see it: `rateLimited` is
`RateLimitError` (caught by the first clause); `apiError` is a transient
`APIError` and `badRequest` a fatal one such as `BadRequestError` — both
are subclasses of `APIError` and hence caught by the second clause, which
cannot tell them apart; `other` is an exception outside the `APIError`
hierarchy, which no clause catches.  The payload stands for exception
identity, so "re-raises the same failure" is expressible. -/
inductive Exn : Type
  | rateLimited (code : Nat)
  | apiError (code : Nat)
  | badRequest (code : Nat)
  | other (code : Nat)
  deriving DecidableEq, Repr

/-- How a call to the wrapper ends: a returned value or a raised exception. -/
inductive RetryResult (α : Type) : Type
  | returned (v : α)
  | raised (e : Exn)
  deriving DecidableEq, Repr

/-- Observable outcome of one call to the wrapped function: final result,
number of invocations of the operation, number of backoff sleeps, number of
warning log lines. -/
structure RetryOut (α : Type) : Type where
  result : RetryResult α
  calls : Nat
  sleeps : Nat
  warns : Nat
  deriving DecidableEq, Repr

/-- The loop `for attempt in range(max_retries)` of the wrapper, followed by
the post-loop call of line 59.  `iters` is the number of loop iterations
still to run, `attempt` the current 0-based attempt index (also the number
of invocations made so far), `s`/`w` the sleeps and warnings so far. -/
def retryLoop (op : Nat → Except Exn α) (maxRetries : Nat) :
    Nat → Nat → Nat → Nat → RetryOut α
  | 0, attempt, s, w =>
    -- loop finished without returning: `return func(*args, **kwargs)` (line 59)
    match op attempt with
    | .ok v => ⟨.returned v, attempt + 1, s, w⟩
    | .error e => ⟨.raised e, attempt + 1, s, w⟩
  | iters + 1, attempt, s, w =>
    match op attempt with
    | .ok v => ⟨.returned v, attempt + 1, s, w⟩
    | .error (.rateLimited c) =>
      if attempt = maxRetries - 1 then ⟨.raised (.rateLimited c), attempt + 1, s, w⟩
      else retryLoop op maxRetries iters (attempt + 1) (s + 1) (w + 1)
    | .error (.apiError c) =>
      if attempt = maxRetries - 1 then ⟨.raised (.apiError c), attempt + 1, s, w⟩
      else retryLoop op maxRetries iters (attempt + 1) (s + 1) (w + 1)
    | .error (.badRequest c) =>
      -- `BadRequestError` is an `APIError`, so `except APIError` catches it
      if attempt = maxRetries - 1 then ⟨.raised (.badRequest c), attempt + 1, s, w⟩
      else retryLoop op maxRetries iters (attempt + 1) (s + 1) (w + 1)
    | .error (.other c) => ⟨.raised (.other c), attempt + 1, s, w⟩

/-- One call of the function produced by `retry_with_exponential_backoff`. -/
def retry_with_exponential_backoff (op : Nat → Except Exn α) (maxRetries : Nat) :
    RetryOut α :=
  retryLoop op maxRetries maxRetries 0 0 0

/-! ### `BatchRefiner` (`refine_batch.py` lines 64-205)

The remote call made for one proposition (`make_api_call` plus the
extraction `response.content[0].text`) is abstracted as
`call : JsonVal → Except PyErr String`, the post-retry outcome for that
item. -/

/-- `BatchRefiner.load_propositions_from_folder` (lines 74-97): glob the
`*.json` files, sorted by name, parse each, and concatenate, treating a
non-list file as a single record; raise `FileNotFoundError` when there is
nothing to load.  (The model's directories always exist, so only the
"no JSON files found" branch of the two raises can fire.) -/
def load_propositions_from_folder (folder : Dir) : Except PyErr (List JsonVal) :=
  match sortByName (jsonFiles folder) with
  | [] => .error .fileNotFound
  | f :: fs => .ok ((f :: fs).foldr (fun p acc => toItems p.2 ++ acc) [])

/-- `BatchRefiner.refine_proposition` (lines 99-156): read the
`proposition`, `domain` and `timestamp` fields (in that order; a missing
field raises before any remote call), perform the remote call, strip the
response text, and build the refined record, carrying `domain` and
`timestamp` over unchanged. -/
def refine_proposition (call : JsonVal → Except PyErr String) (prop_data : JsonVal) :
    Except PyErr JsonVal :=
  match jget prop_data "proposition" with
  | .error e => .error e
  | .ok _proposition =>
    match jget prop_data "domain" with
    | .error e => .error e
    | .ok domain =>
      match jget prop_data "timestamp" with
      | .error e => .error e
      | .ok timestamp =>
        match call prop_data with
        | .error e => .error e
        | .ok text =>
          .ok (.obj [("proposition", .str (strStrip text)),
                     ("domain", domain),
                     ("timestamp", timestamp)])

/-- The `for i, prop_data in enumerate(propositions)` loop of
`refine_batch` (lines 183-188): refine each item in input order; the first
failure aborts the whole batch.  `i` is the index of the first item of the
remaining list. -/
def refineAll (call : Nat → JsonVal → Except PyErr String) :
    Nat → List JsonVal → Except PyErr (List JsonVal)
  | _, [] => .ok []
  | i, p :: ps =>
    match refine_proposition (call i) p with
    | .error e => .error e
    | .ok r =>
      match refineAll call (i + 1) ps with
      | .error e => .error e
      | .ok rest => .ok (r :: rest)

/-- The write at the end of `refine_batch` (lines 200-202): `json.dump` of
the `refined` Python list — always a JSON sequence, even for one item —
overwriting any file of the same name. -/
def saveBatch (directory : Dir) (filename : String) (items : List JsonVal) : Dir :=
  dirInsert directory filename (.arr items)

/-- `BatchRefiner.refine_batch` (lines 158-205): load all propositions from
the input folder, refine each in order, and save the refined sequence to
the output folder under the name of the first `*.json` file of the input
folder (directory order, line 192), falling back to a name derived from the
input folder's basename when the input folder has no JSON file (dead in
practice, since loading already failed in that case).  Returns the updated
output directory and the refined count. -/
def refine_batch (call : Nat → JsonVal → Except PyErr String)
    (input_folder : Dir) (input_folder_name : String) (output_folder : Dir) :
    Except PyErr (Dir × Nat) :=
  match load_propositions_from_folder input_folder with
  | .error e => .error e
  | .ok propositions =>
    match refineAll call 0 propositions with
    | .error e => .error e
    | .ok refined =>
      let original_filename :=
        match jsonFiles input_folder with
        | f :: _ => f.1
        | [] => "batch_" ++ input_folder_name ++ ".json"
      .ok (saveBatch output_folder original_filename refined, refined.length)

/-! ### `PropositionController` (`control.py` lines 28-198)

The filesystem state is the `propositions` bootstrap directory plus the
`responses/1` … `responses/5` stage directories (`setup_folders` creates
them all eagerly, so they always exist).  The number of refinement stages is
the constant 5 of the source (`self.refinement_stages = 5`, and
`count_completed_propositions` hardcodes `responses/5`); batch size and
target total are the configurable constants of `__init__`.

The remote dependencies are an oracle `Env`:
  * `genItem b i` — outcome of `generator.generate_proposition` for item `i`
    of batch `b` (`control.py` line 76);
  * `svc b s i v` — outcome of the retried `make_api_call` (plus response
    text extraction) when stage `s` of batch `b` refines item `i`, whose
    record is `v`.

The per-batch temporary folder is created empty, filled with at most one
file, consumed, and removed again within one stage (`control.py` lines
116-138); within a single run each `temp_input_{b}` is fresh when used, so
the model materializes its content directly. -/

/-- The controller's configurable constants (`control.py` lines 33-35; the
stage count is fixed at 5, see above). -/
structure Config : Type where
  batchSize : Nat := 10
  targetTotal : Nat := 500

/-- The durable state: the bootstrap directory and the stage directories
(`responses s` is `responses/{s}`; only indices 1..5 are ever used). -/
structure FS : Type where
  propositions : Dir
  responses : Nat → Dir

/-- Oracle for the remote text service (see the section comment). -/
structure Env : Type where
  genItem : Nat → Nat → Except PyErr JsonVal
  svc : Nat → Nat → Nat → JsonVal → Except PyErr String

/-- `PropositionController.count_completed_propositions` (lines 49-65):
sum the item counts of the `*.json` files of `responses/5`. -/
def count_completed_propositions (fs : FS) : Nat :=
  (jsonFiles (fs.responses 5)).foldr (fun p acc => itemCount p.2 + acc) 0

/-- The generation loop of `generate_batch` (lines 73-82): produce
`remaining` items starting at item index `i`; after each item the controller
prints `result['domain']` and `result['proposition']`, so a record missing
either key raises before the next item is generated.  No file is written
unless every item succeeds. -/
def genItems (env : Env) (b : Nat) : Nat → Nat → Except PyErr (List JsonVal)
  | 0, _ => .ok []
  | remaining + 1, i =>
    match env.genItem b i with
    | .error e => .error e
    | .ok result =>
      match jget result "domain" with
      | .error e => .error e
      | .ok _ =>
        match jget result "proposition" with
        | .error e => .error e
        | .ok _ =>
          match genItems env b remaining (i + 1) with
          | .error e => .error e
          | .ok rest => .ok (result :: rest)

/-- `PropositionController.generate_batch` (lines 67-90): generate
`batch_size` propositions and save them as a sequence to
`propositions/batch_{b:03d}.json`. -/
def generate_batch (cfg : Config) (env : Env) (b : Nat) (fs : FS) :
    FS × Option PyErr :=
  match genItems env b cfg.batchSize 0 with
  | .error e => (fs, some e)
  | .ok props =>
    ({ fs with propositions := dirInsert fs.propositions (batchFilename b) (.arr props) },
     none)

/-- The folder stage `s` copies its batch file from (`control.py` lines
109-113): the bootstrap `propositions` folder for stage 1, `responses/{s-1}`
afterwards. -/
def stageSourceDir (s : Nat) (fs : FS) : Dir :=
  if s = 1 then fs.propositions else fs.responses (s - 1)

/-- The exact source path stage `s` probes first (`control.py` lines
120-123): `batch_{b:03d}.json` for stage 1 but — as written in line 123 —
`batch_{stage-1}.json` (the *stage* index, unpadded) for later stages. -/
def stageSourceName (b s : Nat) : String :=
  if s = 1 then batchFilename b else "batch_" ++ decStr (s - 1) ++ ".json"

/-- The temporary input folder one stage iteration builds (`control.py`
lines 116-132): probe the exact source path and copy it to
`temp_input/batch_{b:03d}.json`; when the probe misses, glob
`batch_*{b:03d}*.json` in the source folder and copy the first match, still
under the canonical name; when nothing matches, the temporary folder stays
empty. -/
def tempDirFor (b s : Nat) (fs : FS) : Dir :=
  match dirGet (stageSourceDir s fs) (stageSourceName b s) with
  | some v => [(batchFilename b, v)]
  | none =>
    match (stageSourceDir s fs).filter (fun p => globMatchBatch (pad3 b) p.1) with
    | [] => []
    | m :: _ => [(batchFilename b, m.2)]

/-- One iteration of the stage loop of `refine_batch_through_stages`
(lines 102-140): build the temporary folder and refine it into
`responses/{s}`.  On failure the exception propagates with the filesystem
as it stood at the start of the stage. -/
def stageStep (env : Env) (b s : Nat) (fs : FS) : FS × Option PyErr :=
  match refine_batch (env.svc b s) (tempDirFor b s fs) (tempFolderName b) (fs.responses s) with
  | .error e => (fs, some e)
  | .ok (newDir, _count) =>
    ({ fs with responses := Function.update fs.responses s newDir }, none)

/-- The stage loop: run the remaining stages in order, stopping at the
first failure. -/
def refineStagesAux (env : Env) (b : Nat) : List Nat → FS → FS × Option PyErr
  | [], fs => (fs, none)
  | s :: rest, fs =>
    match stageStep env b s fs with
    | (fs1, some e) => (fs1, some e)
    | (fs1, none) => refineStagesAux env b rest fs1

/-- `PropositionController.refine_batch_through_stages` (lines 92-140):
`for stage in range(1, self.refinement_stages + 1)`. -/
def refine_batch_through_stages (env : Env) (b : Nat) (fs : FS) : FS × Option PyErr :=
  refineStagesAux env b (List.range' 1 5) fs

/-- One iteration of the control loop's `try` block (lines 165-170):
generate the batch, then refine it through all stages. -/
def runIteration (cfg : Config) (env : Env) (b : Nat) (fs : FS) : FS × Option PyErr :=
  match generate_batch cfg env b fs with
  | (fs1, some e) => (fs1, some e)
  | (fs1, none) => refine_batch_through_stages env b fs1

/-- Observable events of the control loop: starting the iteration for a
batch id, and the success/failure log line that ends it. -/
inductive Ev : Type
  | attempt (b : Nat)
  | batchOk (b : Nat)
  | failLog (b : Nat)
  deriving DecidableEq, Repr

/-- How the (fuel-bounded) control loop ends: the `while` condition became
false (`done`) or the fuel ran out with the loop still going. -/
inductive Final : Type
  | done
  | fuelOut
  deriving DecidableEq, Repr

/-- The `while completed < self.target_total` loop of
`PropositionController.run` (lines 157-189), bounded by `fuel` iterations.
On success, progress is recounted from disk and the batch id incremented;
on any exception, the failure is logged and the loop continues with the
next batch id and the stale `completed` value (lines 183-189). -/
def runLoop (cfg : Config) (env : Env) :
    Nat → FS → Nat → Nat → FS × List Ev × Final
  | 0, fs, _, _ => (fs, [], .fuelOut)
  | fuel + 1, fs, batch_num, completed =>
    if completed < cfg.targetTotal then
      match runIteration cfg env batch_num fs with
      | (fs1, none) =>
        let r := runLoop cfg env fuel fs1 (batch_num + 1) (count_completed_propositions fs1)
        (r.1, .attempt batch_num :: .batchOk batch_num :: r.2.1, r.2.2)
      | (fs1, some _) =>
        let r := runLoop cfg env fuel fs1 (batch_num + 1) completed
        (r.1, .attempt batch_num :: .failLog batch_num :: r.2.1, r.2.2)
    else (fs, [], .done)

/-- `PropositionController.run` (lines 142-198): count progress from disk,
then run the control loop starting from batch id 1. -/
def run (cfg : Config) (env : Env) (fuel : Nat) (fs : FS) : FS × List Ev × Final :=
  runLoop cfg env fuel fs 1 (count_completed_propositions fs)

/-- The batch ids the loop iterations used, in order. -/
def attemptsOf (evs : List Ev) : List Nat :=
  evs.filterMap fun e => match e with | .attempt b => some b | _ => none

/-- The environment condemns batch `b`: either its first generation call
fails, or some stage's remote calls fail on every item of batch `b` (the
"fails permanently" of the spec). -/
def BatchDoomed (env : Env) (b : Nat) : Prop :=
  (∃ e, env.genItem b 0 = .error e) ∨
    (∃ k e, 1 ≤ k ∧ k ≤ 5 ∧ ∀ i v, env.svc b k i v = .error e)

/-- No file of the directory is the empty JSON sequence. -/
def NoEmptyDir (d : Dir) : Prop := ∀ p ∈ d, isEmptyArr p.2 = false

/-- No batch file anywhere in the pipeline's directories is an empty
sequence — true of every state the pipeline itself produces, since batches
have `batch_size ≥ 1` items and stages preserve item counts. -/
def NoEmptyFS (fs : FS) : Prop :=
  NoEmptyDir fs.propositions ∧ ∀ s, 1 ≤ s → s ≤ 5 → NoEmptyDir (fs.responses s)

/-! ### Basic lemmas: directories -/

theorem dirGet_dirInsert_self (d : Dir) (nm : String) (v : JsonVal) :
    dirGet (dirInsert d nm v) nm = some v := by
  induction d with
  | nil => simp [dirGet, dirInsert]
  | cons p ps ih => by_cases h : p.1 = nm <;> simp [dirInsert, h, dirGet, ih]

theorem dirGet_dirInsert_ne (d : Dir) (nm nm' : String) (v : JsonVal) (h : nm' ≠ nm) :
    dirGet (dirInsert d nm v) nm' = dirGet d nm' := by
  induction d with
  | nil => simp [dirGet, dirInsert, Ne.symm h]
  | cons p ps ih =>
    by_cases hp : p.1 = nm
    · have hq : ¬p.1 = nm' := fun hq => h (hp.symm.trans hq).symm
      simp [dirInsert, dirGet, hp, hq, ih, Ne.symm h]
    · simp only [dirInsert, if_neg hp]
      by_cases hq : p.1 = nm' <;> simp [dirGet, hq, ih]

theorem dirGet_mem {d : Dir} {nm : String} {v : JsonVal} (h : dirGet d nm = some v) :
    (nm, v) ∈ d := by
  induction d with
  | nil => simp [dirGet] at h
  | cons p ps ih =>
    obtain ⟨a, b⟩ := p
    by_cases hp : a = nm
    · simp [dirGet, hp] at h
      simp [hp, h]
    · simp [dirGet, hp] at h
      exact List.mem_cons_of_mem _ (ih h)

theorem mem_dirInsert {d : Dir} {nm : String} {v : JsonVal} {q : String × JsonVal}
    (h : q ∈ dirInsert d nm v) : q ∈ d ∨ q = (nm, v) := by
  induction d with
  | nil =>
    simp [dirInsert] at h
    exact Or.inr h
  | cons p ps ih =>
    by_cases hp : p.1 = nm
    · simp only [dirInsert, if_pos hp] at h
      rcases ih h with h1 | h1
      · exact Or.inl (List.mem_cons_of_mem _ h1)
      · exact Or.inr h1
    · simp only [dirInsert, if_neg hp] at h
      rcases List.mem_cons.mp h with h1 | h1
      · exact Or.inl (h1 ▸ List.mem_cons_self _ _)
      · rcases ih h1 with h2 | h2
        · exact Or.inl (List.mem_cons_of_mem _ h2)
        · exact Or.inr h2

theorem noEmptyDir_dirInsert {d : Dir} {nm : String} {v : JsonVal}
    (hd : NoEmptyDir d) (hv : isEmptyArr v = false) : NoEmptyDir (dirInsert d nm v) := by
  intro p hp
  rcases mem_dirInsert hp with h | h
  · exact hd p h
  · cases h; exact hv

/-! ### Basic lemmas: strings and filenames -/

theorem listPrefixOf_refl_append (l t : List Char) : listPrefixOf l (l ++ t) = true := by
  induction l with
  | nil => rfl
  | cons a as ih => simp [listPrefixOf, ih]

theorem strEndsWith_append (s t : String) : strEndsWith (s ++ t) t = true := by
  unfold strEndsWith
  rw [String.data_append, List.reverse_append]
  exact listPrefixOf_refl_append _ _

theorem batchFilename_json (b : Nat) : strEndsWith (batchFilename b) ".json" = true :=
  strEndsWith_append ("batch_" ++ pad3 b) ".json"

theorem natDigitsAux_eq (f : Nat) : ∀ n, n ≤ f → natDigitsAux f n = Nat.digits 10 n := by
  induction f with
  | zero =>
    intro n h
    have hn : n = 0 := Nat.le_zero.mp h
    subst hn
    simp [natDigitsAux]
  | succ f ih =>
    intro n h
    cases n with
    | zero => simp [natDigitsAux]
    | succ m =>
      have hdiv : (m + 1) / 10 ≤ f := by
        have := Nat.div_lt_self (Nat.succ_pos m) (by norm_num : (1 : Nat) < 10)
        omega
      rw [natDigitsAux, ih _ hdiv,
        (Nat.digits_def' (by norm_num : (1 : Nat) < 10) (Nat.succ_pos m)).symm]

theorem natDigits_eq (n : Nat) : natDigits n = Nat.digits 10 n :=
  natDigitsAux_eq n n le_rfl

theorem ofDigits_replicate_zero (k : Nat) :
    Nat.ofDigits 10 (List.replicate k 0) = 0 := by
  induction k with
  | zero => simp
  | succ k ih => simp [List.replicate, Nat.ofDigits_cons, ih]

theorem pad3digits_lt (n : Nat) : ∀ x ∈ pad3digits n, x < 10 := by
  intro x hx
  rcases List.mem_append.mp hx with h | h
  · rw [natDigits_eq] at h
    exact Nat.digits_lt_base (by norm_num) h
  · rcases List.mem_replicate.mp h with ⟨_, rfl⟩
    norm_num

theorem decVal_decChar : ∀ d, d < 10 → decVal (decChar d) = d := by decide

theorem ofDigits_pad3digits (n : Nat) : Nat.ofDigits 10 (pad3digits n) = n := by
  unfold pad3digits
  rw [Nat.ofDigits_append, ofDigits_replicate_zero, natDigits_eq, Nat.ofDigits_digits]
  simp

theorem unpad_pad3 (n : Nat) :
    Nat.ofDigits 10 (((pad3 n).data.map decVal).reverse) = n := by
  show Nat.ofDigits 10 ((((pad3digits n).reverse.map decChar).map decVal).reverse) = n
  rw [List.map_map]
  have hmap : (pad3digits n).reverse.map (decVal ∘ decChar) = (pad3digits n).reverse := by
    have h1 : (pad3digits n).reverse.map (decVal ∘ decChar) = (pad3digits n).reverse.map id :=
      List.map_congr_left fun a ha =>
        decVal_decChar a (pad3digits_lt n a (List.mem_reverse.mp ha))
    rw [h1, List.map_id]
  rw [hmap, List.reverse_reverse, ofDigits_pad3digits]

theorem pad3_data_inj {a b : Nat} (h : (pad3 a).data = (pad3 b).data) : a = b := by
  have ha := unpad_pad3 a
  rw [h] at ha
  exact ha.symm.trans (unpad_pad3 b)

theorem batchFilename_inj : Function.Injective batchFilename := by
  intro a b h
  apply pad3_data_inj
  have hd := congrArg String.data h
  simp only [batchFilename, String.data_append] at hd
  exact List.append_cancel_left (List.append_cancel_right hd)

/-! ### Basic lemmas: sorting and loading -/

theorem insertSorted_length (x : String × JsonVal) (d : Dir) :
    (insertSorted x d).length = d.length + 1 := by
  induction d with
  | nil => rfl
  | cons y ys ih => by_cases h : x.1 ≤ y.1 <;> simp [insertSorted, h, ih]

theorem sortByName_length (d : Dir) : (sortByName d).length = d.length := by
  induction d with
  | nil => rfl
  | cons p ps ih =>
    show (insertSorted p (sortByName ps)).length = _
    rw [insertSorted_length, ih]
    rfl

theorem sortByName_eq_nil {d : Dir} (h : sortByName d = []) : d = [] := by
  have hl := sortByName_length d
  rw [h] at hl
  exact List.length_eq_zero.mp hl.symm

theorem jsonFiles_singleton {nm : String} (v : JsonVal)
    (hnm : strEndsWith nm ".json" = true) : jsonFiles [(nm, v)] = [(nm, v)] := by
  simp [jsonFiles, hnm]

theorem load_single (nm : String) (v : JsonVal) (hnm : strEndsWith nm ".json" = true) :
    load_propositions_from_folder [(nm, v)] = .ok (toItems v) := by
  unfold load_propositions_from_folder
  rw [jsonFiles_singleton v hnm]
  simp [sortByName, insertSorted]

theorem toItems_ne_nil {v : JsonVal} (hv : isEmptyArr v = false) : toItems v ≠ [] := by
  cases v with
  | arr l =>
    cases l with
    | nil => simp [isEmptyArr] at hv
    | cons a as => simp [toItems]
  | str s => simp [toItems]
  | obj f => simp [toItems]

/-! ### Lemmas about `refineAll` and `refine_batch` -/

theorem refineAll_length {call : Nat → JsonVal → Except PyErr String} :
    ∀ {ps : List JsonVal} {i : Nat} {out : List JsonVal},
      refineAll call i ps = .ok out → out.length = ps.length := by
  intro ps
  induction ps with
  | nil =>
    intro i out h
    simp [refineAll] at h
    simp [← h]
  | cons p ps ih =>
    intro i out h
    simp only [refineAll] at h
    cases hr : refine_proposition (call i) p with
    | error e => rw [hr] at h; simp at h
    | ok r =>
      rw [hr] at h
      cases hrest : refineAll call (i + 1) ps with
      | error e => rw [hrest] at h; simp at h
      | ok rest =>
        rw [hrest] at h
        simp at h
        simp [← h, ih hrest]

theorem refineAll_pos {call : Nat → JsonVal → Except PyErr String} :
    ∀ {ps : List JsonVal} {i : Nat} {out : List JsonVal},
      refineAll call i ps = .ok out →
      ∀ j x, ps[j]? = some x →
        ∃ y, out[j]? = some y ∧ refine_proposition (call (i + j)) x = .ok y := by
  intro ps
  induction ps with
  | nil =>
    intro i out h j x hx
    simp at hx
  | cons p ps ih =>
    intro i out h j x hx
    simp only [refineAll] at h
    cases hr : refine_proposition (call i) p with
    | error e => rw [hr] at h; simp at h
    | ok r =>
      rw [hr] at h
      cases hrest : refineAll call (i + 1) ps with
      | error e => rw [hrest] at h; simp at h
      | ok rest =>
        rw [hrest] at h
        simp at h
        subst h
        cases j with
        | zero =>
          refine ⟨r, by simp, ?_⟩
          simp at hx
          rw [← hx]
          simpa using hr
        | succ j =>
          simp only [List.getElem?_cons_succ] at hx ⊢
          have hstep := ih hrest j x hx
          have harith : i + 1 + j = i + (j + 1) := by omega
          rw [harith] at hstep
          exact hstep

/-- What a successful `refine_batch` did: the load succeeded, every item was
refined in order, and the result was saved to the output folder under the
name of the first `*.json` file of the input folder. -/
theorem refine_batch_ok {call : Nat → JsonVal → Except PyErr String}
    {input : Dir} {nmF : String} {outD d : Dir} {n : Nat}
    (h : refine_batch call input nmF outD = .ok (d, n)) :
    ∃ props refined f rest,
      load_propositions_from_folder input = .ok props ∧
      refineAll call 0 props = .ok refined ∧
      n = refined.length ∧ refined.length = props.length ∧
      jsonFiles input = f :: rest ∧
      d = saveBatch outD f.1 refined := by
  cases hl : load_propositions_from_folder input with
  | error e => simp [refine_batch, hl] at h
  | ok props =>
    cases hr : refineAll call 0 props with
    | error e => simp [refine_batch, hl, hr] at h
    | ok refined =>
      cases hj : jsonFiles input with
      | nil =>
        exfalso
        unfold load_propositions_from_folder at hl
        rw [hj] at hl
        simp [sortByName] at hl
      | cons f rest =>
        simp only [refine_batch, hl, hr, hj, Except.ok.injEq, Prod.mk.injEq] at h
        exact ⟨props, refined, f, rest, rfl, hr, h.2.symm, refineAll_length hr,
          rfl, h.1.symm⟩

/-- A failed `refine_batch` wrote nothing (it returns only the error). -/
theorem refine_batch_empty_dir {call : Nat → JsonVal → Except PyErr String}
    {nmF : String} {outD : Dir} :
    refine_batch call [] nmF outD = .error .fileNotFound := by
  rfl

/-! ### Lemmas about the retry wrapper -/

/-- When every invocation raises `RateLimitError`, the remaining `j + 1`
loop iterations make `j + 1` calls, sleep `j` times, and re-raise the last
failure at the final iteration. -/
theorem retryLoop_all_rateLimited {α : Type} (op : Nat → Except Exn α) (m : Nat → Nat)
    (mr : Nat) (hop : ∀ i, op i = .error (.rateLimited (m i))) :
    ∀ j a s w, a + j + 1 = mr →
      retryLoop op mr (j + 1) a s w =
        ⟨.raised (.rateLimited (m (mr - 1))), mr, s + j, w + j⟩ := by
  intro j
  induction j with
  | zero =>
    intro a s w h
    obtain rfl : mr = a + 1 := by omega
    simp [retryLoop, hop a]
  | succ j ih =>
    intro a s w h
    have hne : ¬(a = mr - 1) := by omega
    rw [retryLoop, hop a]
    dsimp only
    rw [if_neg hne, ih (a + 1) (s + 1) (w + 1) (by omega),
      show s + 1 + j = s + (j + 1) by omega, show w + 1 + j = w + (j + 1) by omega]

/-- When the first `k` invocations raise `RateLimitError` and invocation
`k` succeeds within the remaining iteration budget, the loop returns that
success after `k + 1` calls and `k` sleeps. -/
theorem retryLoop_success {α : Type} (op : Nat → Except Exn α) (m : Nat → Nat)
    (mr : Nat) (v : α) :
    ∀ k n a s w, a + n = mr → k < n →
      (∀ i, i < k → op (a + i) = .error (.rateLimited (m (a + i)))) →
      op (a + k) = .ok v →
      retryLoop op mr n a s w = ⟨.returned v, a + k + 1, s + k, w + k⟩ := by
  intro k
  induction k with
  | zero =>
    intro n a s w hn hk hfail hok
    cases n with
    | zero => omega
    | succ n' =>
      rw [show a + 0 = a from rfl] at hok
      simp [retryLoop, hok]
  | succ k ih =>
    intro n a s w hn hk hfail hok
    cases n with
    | zero => omega
    | succ n' =>
      have h0 := hfail 0 (by omega)
      rw [show a + 0 = a from rfl] at h0
      have hne : ¬(a = mr - 1) := by omega
      rw [retryLoop, h0]
      dsimp only
      rw [if_neg hne,
        ih n' (a + 1) (s + 1) (w + 1) (by omega) (by omega)
          (fun i hi => by
            have hh := hfail (i + 1) (by omega)
            rwa [show a + (i + 1) = a + 1 + i by omega] at hh)
          (by rwa [show a + (k + 1) = a + 1 + k by omega] at hok),
        show a + 1 + k + 1 = a + (k + 1) + 1 by omega,
        show s + 1 + k = s + (k + 1) by omega,
        show w + 1 + k = w + (k + 1) by omega]

/-- C3 — Retry bound: for every `max_retries ≥ 1`, if the wrapped operation
raises a rate-limit failure on every invocation, the wrapper invokes it
exactly `max_retries` times and then re-raises the last failure (never
swallowing it); if the operation succeeds on some attempt `r ≤ max_retries`
(0-based index `r - 1`) after rate-limit failures, the wrapper returns that
success after exactly `r` invocations, with no further invocations. -/
theorem c3_retry_bound (mr : Nat) (hmr : 1 ≤ mr) :
    (∀ {α : Type} (op : Nat → Except Exn α) (m : Nat → Nat),
        (∀ i, op i = .error (.rateLimited (m i))) →
        retry_with_exponential_backoff op mr =
          ⟨.raised (.rateLimited (m (mr - 1))), mr, mr - 1, mr - 1⟩) ∧
    (∀ {α : Type} (op : Nat → Except Exn α) (m : Nat → Nat) (r : Nat) (v : α),
        1 ≤ r → r ≤ mr →
        (∀ i, i < r - 1 → op i = .error (.rateLimited (m i))) →
        op (r - 1) = .ok v →
        retry_with_exponential_backoff op mr = ⟨.returned v, r, r - 1, r - 1⟩) := by
  constructor
  · intro α op m hop
    unfold retry_with_exponential_backoff
    obtain ⟨j, rfl⟩ : ∃ j, mr = j + 1 := ⟨mr - 1, by omega⟩
    rw [retryLoop_all_rateLimited op m (j + 1) hop j 0 0 0 (by omega)]
    simp
  · intro α op m r v hr1 hr2 hfail hok
    unfold retry_with_exponential_backoff
    rw [retryLoop_success op m mr v (r - 1) mr 0 0 0 (by omega) (by omega)
        (fun i hi => by simpa using hfail i hi) (by simpa using hok),
      show 0 + (r - 1) + 1 = r by omega, show 0 + (r - 1) = r - 1 by omega]

/-- Witness for C3: an operation that always raises `RateLimitError`, with
`max_retries = 3`: exactly 3 invocations, 2 sleeps, failure re-raised. -/
theorem c3_witness :
    retry_with_exponential_backoff
        (fun _ => (.error (.rateLimited 7) : Except Exn Nat)) 3 =
      ⟨.raised (.rateLimited 7), 3, 2, 2⟩ :=
  (c3_retry_bound 3 (by decide)).1 (fun _ => .error (.rateLimited 7))
    (fun _ => 7) (fun _ => rfl)

/-- What the wrapper's catch clauses actually discriminate: an exception
*outside* the `APIError` hierarchy propagates at once (one invocation, no
sleep, for every `max_retries`), while an `APIError` on the first attempt
is retried.  Note this says nothing about fatal service failures such as
`BadRequestError`: those are *inside* the `APIError` hierarchy (see
`c4_bad_request_retried`). -/
theorem retry_outside_api_immediate :
    (∀ {α : Type} (op : Nat → Except Exn α) (mr c : Nat),
        op 0 = .error (.other c) →
        retry_with_exponential_backoff op mr = ⟨.raised (.other c), 1, 0, 0⟩) ∧
    (∀ {α : Type} (op : Nat → Except Exn α) (mr c : Nat) (v : α),
        2 ≤ mr → op 0 = .error (.apiError c) → op 1 = .ok v →
        retry_with_exponential_backoff op mr = ⟨.returned v, 2, 1, 1⟩) := by
  constructor
  · intro α op mr c h
    cases mr with
    | zero => simp [retry_with_exponential_backoff, retryLoop, h]
    | succ k => simp [retry_with_exponential_backoff, retryLoop, h]
  · intro α op mr c v hmr h0 h1
    obtain ⟨k, rfl⟩ : ∃ k, mr = k + 2 := ⟨mr - 2, by omega⟩
    simp only [retry_with_exponential_backoff, retryLoop, h0, h1]
    rw [if_neg (by omega : ¬((0 : Nat) = k + 2 - 1))]

/-- C4 — the code's behavior at the claim's failing input.  The claim (and
the spec's retry contract) requires a fatal, non-retry-worthy service
failure such as a malformed request to propagate immediately after the
first attempt, with no retry and no backoff sleep.  But a malformed
request raises `BadRequestError`, a subclass of `APIError` in the SDK, so
the `except APIError` clause (`refine_batch.py` line 49) catches it and
retries it like a transient failure: with the default `max_retries = 5`
and every invocation raising `BadRequestError`, the wrapper makes 5
invocations and sleeps 4 times before re-raising — not 1 invocation and 0
sleeps.  The code contradicts the documented contract: a code bug. -/
theorem c4_bad_request_retried :
    retry_with_exponential_backoff
        (fun _ => (.error (.badRequest 0) : Except Exn Nat)) 5 =
      ⟨.raised (.badRequest 0), 5, 4, 4⟩ := by
  decide

/-- C10 — Zero-retry edge case: with `max_retries = 0` the `for` loop body
never runs, yet the operation is still invoked exactly once by the
`return func(*args, **kwargs)` after the loop; a success is returned, and
any failure — a rate-limit one included — is raised to the caller with no
retry, no backoff sleep, and no warning log. -/
theorem c10_zero_retries {α : Type} (op : Nat → Except Exn α) :
    retry_with_exponential_backoff op 0 =
      ⟨match op 0 with | .ok v => .returned v | .error e => .raised e, 1, 0, 0⟩ := by
  cases h : op 0 <;> simp [retry_with_exponential_backoff, retryLoop, h]

/-! ### C7, C8, C5: the refiner-level claims -/

/-- C7 — WorkItem frame condition: whenever `refine_proposition` succeeds,
the `domain` and `timestamp` fields of the output record are exactly the
corresponding fields of the input record, and the output is an object whose
only other field is the (possibly changed) `proposition` text. -/
theorem c7_workitem_frame (call : JsonVal → Except PyErr String) (p out : JsonVal)
    (h : refine_proposition call p = .ok out) :
    jget out "domain" = jget p "domain" ∧
    jget out "timestamp" = jget p "timestamp" ∧
    ∃ t dv tv, jget p "domain" = .ok dv ∧ jget p "timestamp" = .ok tv ∧
      out = .obj [("proposition", .str t), ("domain", dv), ("timestamp", tv)] := by
  cases h1 : jget p "proposition" with
  | error e => simp [refine_proposition, h1] at h
  | ok prop =>
    cases h2 : jget p "domain" with
    | error e => simp [refine_proposition, h1, h2] at h
    | ok dv =>
      cases h3 : jget p "timestamp" with
      | error e => simp [refine_proposition, h1, h2, h3] at h
      | ok tv =>
        cases h4 : call p with
        | error e => simp [refine_proposition, h1, h2, h3, h4] at h
        | ok text =>
          simp only [refine_proposition, h1, h2, h3, h4, Except.ok.injEq] at h
          subst h
          exact ⟨rfl, rfl, strStrip text, dv, tv, rfl, rfl, rfl⟩

/-- Fixture: a well-formed generated record. -/
def itemA : JsonVal :=
  .obj [("proposition", .str "p"), ("domain", .str "d"), ("timestamp", .str "t")]

/-- Fixture: `itemA` after a refinement returning text `"r"`. -/
def itemR : JsonVal :=
  .obj [("proposition", .str "r"), ("domain", .str "d"), ("timestamp", .str "t")]

/-- Witness for C7: refining `itemA` with response `"r"` keeps `domain` and
`timestamp` unchanged. -/
theorem c7_witness :
    jget itemR "domain" = jget itemA "domain" ∧
    jget itemR "timestamp" = jget itemA "timestamp" ∧
    ∃ t dv tv, jget itemA "domain" = .ok dv ∧ jget itemA "timestamp" = .ok tv ∧
      itemR = .obj [("proposition", .str t), ("domain", dv), ("timestamp", tv)] :=
  c7_workitem_frame (fun _ => .ok "r") itemA itemR rfl

/-- C8 — Round-trip serialization: saving a sequence of records (always
written as a JSON sequence, even for a single record) and loading the
directory back yields exactly the records written, and loading a file that
holds one bare record yields that single record. -/
theorem c8_round_trip (items : List JsonVal) (fname : String)
    (hj : strEndsWith fname ".json" = true) (v : JsonVal) (hv : ∀ l, v ≠ .arr l) :
    load_propositions_from_folder (saveBatch [] fname items) = .ok items ∧
    (∀ x : JsonVal, load_propositions_from_folder (saveBatch [] fname [x]) = .ok [x]) ∧
    load_propositions_from_folder [(fname, v)] = .ok [v] := by
  have hti : toItems v = [v] := by
    cases v with
    | arr l => exact absurd rfl (hv l)
    | str s => rfl
    | obj f => rfl
  refine ⟨?_, ?_, ?_⟩
  · rw [show saveBatch ([] : Dir) fname items = [(fname, .arr items)] from rfl,
      load_single fname (.arr items) hj]
    rfl
  · intro x
    rw [show saveBatch ([] : Dir) fname [x] = [(fname, .arr [x])] from rfl,
      load_single fname (.arr [x]) hj]
    rfl
  · rw [load_single fname v hj, hti]

/-- Witness for C8: a two-record batch and a bare record round-trip through
the file `batch_001.json`. -/
theorem c8_witness :
    load_propositions_from_folder (saveBatch [] "batch_001.json" [itemA, itemR]) =
        .ok [itemA, itemR] ∧
    (∀ x : JsonVal,
        load_propositions_from_folder (saveBatch [] "batch_001.json" [x]) = .ok [x]) ∧
    load_propositions_from_folder [("batch_001.json", itemA)] = .ok [itemA] :=
  c8_round_trip [itemA, itemR] "batch_001.json" (by decide) itemA
    (fun l h => JsonVal.noConfusion h)

/-- C5 — Order preservation: when a stage run (`refine_batch`) succeeds on
an input folder whose loaded items are `props`, the refined sequence has
the same length, the returned count is that length, and for every position
`j` the `j`-th output is exactly the refinement of the `j`-th input —
items are transformed strictly in input order. -/
theorem c5_order_preservation (call : Nat → JsonVal → Except PyErr String)
    (input : Dir) (nmF : String) (outD d : Dir) (n : Nat) (props : List JsonVal)
    (hload : load_propositions_from_folder input = .ok props)
    (hrun : refine_batch call input nmF outD = .ok (d, n)) :
    ∃ out, refineAll call 0 props = .ok out ∧
      out.length = props.length ∧ n = props.length ∧
      (∀ j x, props[j]? = some x →
        ∃ y, out[j]? = some y ∧ refine_proposition (call j) x = .ok y) := by
  obtain ⟨props', refined, f, rest, hl', hr', hn, hlen, hjf, hd⟩ := refine_batch_ok hrun
  rw [hload] at hl'
  injection hl' with he
  subst he
  refine ⟨refined, hr', hlen, by omega, ?_⟩
  intro j x hx
  have hpos := refineAll_pos hr' j x hx
  simp only [Nat.zero_add] at hpos
  exact hpos

/-- Witness for C5: a one-item batch refined with response text `"r"`. -/
theorem c5_witness :
    ∃ out, refineAll (fun _ _ => .ok "r") 0 [itemA] = .ok out ∧
      out.length = [itemA].length ∧ (1 : Nat) = [itemA].length ∧
      (∀ (j : Nat) (x : JsonVal), [itemA][j]? = some x →
        ∃ y, out[j]? = some y ∧
          refine_proposition ((fun _ _ => (.ok "r" : Except PyErr String)) j) x = .ok y) :=
  c5_order_preservation (fun _ _ => .ok "r") [("batch_001.json", .arr [itemA])] "x" []
    [("batch_001.json", .arr [itemR])] 1 [itemA] rfl rfl

/-! ### C1: idempotent resume -/

/-- C1 — Idempotent resume: for every starting filesystem state whose
terminal-stage (`responses/5`) item count is at least the configured
target, the controller reaches `Done` immediately: the filesystem is
untouched and the event trace is empty — no loop iteration starts, so no
batch is generated, no stage is run, and no remote call is made (remote
calls happen only inside loop iterations). -/
theorem c1_idempotent_resume (cfg : Config) (env : Env) (fs : FS) (f : Nat)
    (h : cfg.targetTotal ≤ count_completed_propositions fs) :
    run cfg env (f + 1) fs = (fs, [], .done) := by
  unfold run runLoop
  rw [if_neg (Nat.not_lt.mpr h)]

/-- Fixture: a filesystem whose terminal stage already holds one completed
item. -/
def fsDone : FS :=
  { propositions := []
    responses := fun s => if s = 5 then [("batch_001.json", .arr [itemR])] else [] }

/-- Fixture: an environment whose remote calls all fail (so any remote call
would be visible as a failed batch). -/
def envFail : Env :=
  { genItem := fun _ _ => .error .fileNotFound
    svc := fun _ _ _ _ => .error .fileNotFound }

/-- Witness for C1: with target 1 and one completed item on disk, the
controller is immediately done, touching nothing. -/
theorem c1_witness :
    run { batchSize := 10, targetTotal := 1 } envFail 3 fsDone = (fsDone, [], .done) :=
  c1_idempotent_resume { batchSize := 10, targetTotal := 1 } envFail fsDone 2 (by decide)

/-! ### C9: batch id assignment -/

theorem attemptsOf_nil : attemptsOf [] = [] := rfl

theorem attemptsOf_attempt (b : Nat) (evs : List Ev) :
    attemptsOf (.attempt b :: evs) = b :: attemptsOf evs := rfl

theorem attemptsOf_batchOk (b : Nat) (evs : List Ev) :
    attemptsOf (.batchOk b :: evs) = attemptsOf evs := rfl

theorem attemptsOf_failLog (b : Nat) (evs : List Ev) :
    attemptsOf (.failLog b :: evs) = attemptsOf evs := rfl

theorem range'_succ_exp (s m : Nat) : List.range' s (m + 1) = s :: List.range' (s + 1) m := rfl

/-- C9 (amended) — the batch ids used by the control loop's iterations are
the consecutive integers starting at the loop's initial id (1, for `run`):
strictly monotonically increasing and unique within one run.  The id is
incremented after every iteration, successful or failed.  (Freshness
against pre-existing batch files on disk is *not* part of this statement:
see the counterexample.) -/
theorem c9_ids_consecutive (cfg : Config) (env : Env) :
    ∀ (fuel : Nat) (fs : FS) (b c : Nat),
      attemptsOf (runLoop cfg env fuel fs b c).2.1 =
        List.range' b (attemptsOf (runLoop cfg env fuel fs b c).2.1).length := by
  intro fuel
  induction fuel with
  | zero => intro fs b c; rfl
  | succ fuel ih =>
    intro fs b c
    rw [runLoop]
    by_cases hlt : c < cfg.targetTotal
    · rw [if_pos hlt]
      cases hit : runIteration cfg env b fs with
      | mk fs1 err =>
        cases err with
        | none =>
          dsimp only
          rw [attemptsOf_attempt, attemptsOf_batchOk, List.length_cons, range'_succ_exp]
          exact congrArg (List.cons b) (ih fs1 (b + 1) (count_completed_propositions fs1))
        | some e =>
          dsimp only
          rw [attemptsOf_attempt, attemptsOf_failLog, List.length_cons, range'_succ_exp]
          exact congrArg (List.cons b) (ih fs1 (b + 1) c)
    · rw [if_neg hlt]
      rfl

/-- Fixture for the C9 counterexample: a config with a tiny target, an
environment where everything succeeds, and directories left over from a
"previous run" that already contain the batch file for id 1. -/
def cfg9 : Config := { batchSize := 1, targetTotal := 1 }

/-- Fixture: every generation returns `itemA`; every refinement returns
text `"r"`. -/
def env9 : Env := { genItem := fun _ _ => .ok itemA, svc := fun _ _ _ _ => .ok "r" }

/-- Fixture: leftover state of an interrupted run — `propositions` already
holds `batch_001.json`, the terminal stage is empty. -/
def fs9 : FS := { propositions := [("batch_001.json", .arr [itemA])], responses := fun _ => [] }

/-- Counterexample to C9 as stated: restarted over directories in which the
batch file for id 1 already exists, the controller nevertheless starts its
first iteration with batch id 1 — the id is *not* fresh with respect to the
batch files on disk (`run` always restarts `batch_num` at 1, `control.py`
line 157) — and the completed run re-used that id all the way to the
terminal stage. -/
theorem c9_counterexample :
    (dirGet fs9.propositions (batchFilename 1)).isSome = true ∧
    Ev.attempt 1 ∈ (run cfg9 env9 2 fs9).2.1 ∧
    (dirGet ((run cfg9 env9 2 fs9).1.responses 5) (batchFilename 1)).isSome = true := by
  decide

/-! ### Lemmas about one stage step -/

/-- The temporary folder is empty, or holds exactly one file — named
`batch_{b:03d}.json` — whose content is some file of the stage's source
directory. -/
theorem tempDirFor_shape (b s : Nat) (fs : FS) :
    tempDirFor b s fs = [] ∨
    ∃ v, tempDirFor b s fs = [(batchFilename b, v)] ∧
      ∃ nm, (nm, v) ∈ stageSourceDir s fs := by
  unfold tempDirFor
  cases hg : dirGet (stageSourceDir s fs) (stageSourceName b s) with
  | some v => exact Or.inr ⟨v, rfl, stageSourceName b s, dirGet_mem hg⟩
  | none =>
    cases hf : (stageSourceDir s fs).filter (fun p => globMatchBatch (pad3 b) p.1) with
    | nil => exact Or.inl rfl
    | cons m ms =>
      refine Or.inr ⟨m.2, rfl, m.1, ?_⟩
      have hm : m ∈ (stageSourceDir s fs).filter (fun p => globMatchBatch (pad3 b) p.1) := by
        rw [hf]; exact List.mem_cons_self _ _
      exact (List.mem_filter.mp hm).1

/-- A failing stage step leaves the filesystem exactly as it was. -/
theorem stageStep_err {env : Env} {b s : Nat} {fs fs1 : FS} {e : PyErr}
    (h : stageStep env b s fs = (fs1, some e)) : fs1 = fs := by
  unfold stageStep at h
  cases hr : refine_batch (env.svc b s) (tempDirFor b s fs) (tempFolderName b)
      (fs.responses s) with
  | error e' =>
    rw [hr] at h
    simp only [Prod.mk.injEq] at h
    exact h.1.symm
  | ok p =>
    obtain ⟨newDir, cnt⟩ := p
    rw [hr] at h
    simp at h

/-- A successful stage step updates exactly `responses/{s}`, inserting the
file `batch_{b:03d}.json` whose content is the refined item sequence of the
temporary folder's single copied file. -/
theorem stageStep_ok {env : Env} {b s : Nat} {fs fs1 : FS}
    (h : stageStep env b s fs = (fs1, none)) :
    ∃ v out,
      tempDirFor b s fs = [(batchFilename b, v)] ∧
      (∃ nm, (nm, v) ∈ stageSourceDir s fs) ∧
      refineAll (env.svc b s) 0 (toItems v) = .ok out ∧
      out.length = (toItems v).length ∧
      fs1 = { fs with responses := (Function.update fs.responses s
        (dirInsert (fs.responses s) (batchFilename b) (.arr out))) } := by
  unfold stageStep at h
  cases hr : refine_batch (env.svc b s) (tempDirFor b s fs) (tempFolderName b)
      (fs.responses s) with
  | error e => rw [hr] at h; simp at h
  | ok p =>
    obtain ⟨newDir, cnt⟩ := p
    rw [hr] at h
    simp only [Prod.mk.injEq] at h
    rcases tempDirFor_shape b s fs with ht | ⟨v, ht, hmem⟩
    · rw [ht, refine_batch_empty_dir] at hr
      exact absurd hr (by simp)
    · obtain ⟨props, refined, f, rest, hl, hra, hcnt, hlen, hjf, hd⟩ := refine_batch_ok hr
      rw [ht, jsonFiles_singleton v (batchFilename_json b)] at hjf
      injection hjf with hf hrest
      rw [ht, load_single _ _ (batchFilename_json b)] at hl
      injection hl with hprops
      subst hprops
      refine ⟨v, refined, ht, hmem, hra, hlen, ?_⟩
      rw [← h.1, hd, ← hf]
      rfl

/-- When the remote call for an item fails, refining that item fails (with
that error, or earlier with a field-access error). -/
theorem refine_proposition_err {call : JsonVal → Except PyErr String} {p : JsonVal}
    {e : PyErr} (hc : call p = .error e) :
    ∃ e', refine_proposition call p = .error e' := by
  cases h1 : jget p "proposition" with
  | error e1 => exact ⟨e1, by simp [refine_proposition, h1]⟩
  | ok v1 =>
    cases h2 : jget p "domain" with
    | error e2 => exact ⟨e2, by simp [refine_proposition, h1, h2]⟩
    | ok v2 =>
      cases h3 : jget p "timestamp" with
      | error e3 => exact ⟨e3, by simp [refine_proposition, h1, h2, h3]⟩
      | ok v3 => exact ⟨e, by simp [refine_proposition, h1, h2, h3, hc]⟩

theorem refineAll_cons_err {call : Nat → JsonVal → Except PyErr String}
    {p0 : JsonVal} {ps : List JsonVal} {i : Nat} {e : PyErr}
    (h : refine_proposition (call i) p0 = .error e) :
    refineAll call i (p0 :: ps) = .error e := by
  simp [refineAll, h]

/-- If the environment fails every remote call of stage `s` for batch `b`,
the stage step fails and leaves the filesystem unchanged (`NoEmptyFS`
guarantees the loaded batch is never the empty sequence, so at least one
item is attempted whenever the load itself does not already fail). -/
theorem stageStep_doomed {env : Env} {b s : Nat} {fs : FS} {e : PyErr}
    (hsvc : ∀ i v, env.svc b s i v = .error e)
    (hs1 : 1 ≤ s) (hs5 : s ≤ 5) (hfs : NoEmptyFS fs) :
    ∃ e', stageStep env b s fs = (fs, some e') := by
  rcases tempDirFor_shape b s fs with ht | ⟨v, ht, nm, hmem⟩
  · unfold stageStep
    rw [ht, refine_batch_empty_dir]
    exact ⟨.fileNotFound, rfl⟩
  · have hv : isEmptyArr v = false := by
      unfold stageSourceDir at hmem
      by_cases h1 : s = 1
      · rw [if_pos h1] at hmem; exact hfs.1 _ hmem
      · rw [if_neg h1] at hmem
        exact hfs.2 (s - 1) (by omega) (by omega) _ hmem
    obtain ⟨p0, ps, hti⟩ : ∃ p0 ps, toItems v = p0 :: ps := by
      cases hcase : toItems v with
      | nil => exact absurd hcase (toItems_ne_nil hv)
      | cons p0 ps => exact ⟨p0, ps, rfl⟩
    unfold stageStep
    cases hr : refine_batch (env.svc b s) (tempDirFor b s fs) (tempFolderName b)
        (fs.responses s) with
    | error e' => exact ⟨e', rfl⟩
    | ok pr =>
      exfalso
      obtain ⟨nd, cnt⟩ := pr
      obtain ⟨props, refined, f, rest, hl, hra, _, _, _, _⟩ := refine_batch_ok hr
      rw [ht, load_single _ _ (batchFilename_json b)] at hl
      injection hl with hprops
      obtain ⟨e0, hrp⟩ := refine_proposition_err (hsvc 0 p0)
      rw [← hprops, hti, refineAll_cons_err hrp] at hra
      exact Except.noConfusion hra

/-- Whatever its outcome, a stage step leaves the bootstrap folder alone,
leaves every other stage directory alone, and touches no filename other
than `batch_{b:03d}.json`. -/
theorem stageStep_frame (env : Env) (b s : Nat) (fs : FS) :
    (stageStep env b s fs).1.propositions = fs.propositions ∧
    (∀ t, t ≠ s → (stageStep env b s fs).1.responses t = fs.responses t) ∧
    (∀ t nm, nm ≠ batchFilename b →
      dirGet ((stageStep env b s fs).1.responses t) nm = dirGet (fs.responses t) nm) := by
  cases hss : stageStep env b s fs with
  | mk fs1 err =>
    cases err with
    | some e =>
      rw [stageStep_err hss]
      exact ⟨rfl, fun t _ => rfl, fun t nm _ => rfl⟩
    | none =>
      obtain ⟨v, out, ht, hmem, hra, hlen, hfs1⟩ := stageStep_ok hss
      subst hfs1
      refine ⟨rfl, fun t ht' => Function.update_noteq ht' _ _, fun t nm hnm => ?_⟩
      by_cases hts : t = s
      · subst hts
        show dirGet (Function.update fs.responses t _ t) nm = _
        rw [Function.update_same, dirGet_dirInsert_ne _ _ _ _ hnm]
      · show dirGet (Function.update fs.responses s _ t) nm = _
        rw [Function.update_noteq hts]

/-- A stage step preserves the no-empty-batch-file invariant. -/
theorem stageStep_noEmpty {env : Env} {b s : Nat} {fs : FS}
    (hs1 : 1 ≤ s) (hs5 : s ≤ 5) (hfs : NoEmptyFS fs) :
    NoEmptyFS (stageStep env b s fs).1 := by
  cases hss : stageStep env b s fs with
  | mk fs1 err =>
    cases err with
    | some e => rw [stageStep_err hss]; exact hfs
    | none =>
      obtain ⟨v, out, ht, ⟨nm, hmem⟩, hra, hlen, hfs1⟩ := stageStep_ok hss
      subst hfs1
      have hv : isEmptyArr v = false := by
        unfold stageSourceDir at hmem
        by_cases h1 : s = 1
        · rw [if_pos h1] at hmem; exact hfs.1 _ hmem
        · rw [if_neg h1] at hmem
          exact hfs.2 (s - 1) (by omega) (by omega) _ hmem
      have hout : out ≠ [] := by
        intro hnil
        rw [hnil] at hlen
        exact toItems_ne_nil hv (List.length_eq_zero.mp hlen.symm)
      refine ⟨hfs.1, fun t ht1 ht5 => ?_⟩
      by_cases hts : t = s
      · subst hts
        show NoEmptyDir (Function.update fs.responses t _ t)
        rw [Function.update_same]
        apply noEmptyDir_dirInsert (hfs.2 t ht1 ht5)
        cases out with
        | nil => exact absurd rfl hout
        | cons o os => rfl
      · show NoEmptyDir (Function.update fs.responses s _ t)
        rw [Function.update_noteq hts]
        exact hfs.2 t ht1 ht5

/-! ### Lemmas about the stage loop -/

theorem refineStagesAux_cons_err {env : Env} {b s : Nat} {rest : List Nat}
    {fs fs1 : FS} {e : PyErr} (hss : stageStep env b s fs = (fs1, some e)) :
    refineStagesAux env b (s :: rest) fs = (fs1, some e) := by
  simp [refineStagesAux, hss]

theorem refineStagesAux_cons_ok {env : Env} {b s : Nat} {rest : List Nat}
    {fs fs1 : FS} (hss : stageStep env b s fs = (fs1, none)) :
    refineStagesAux env b (s :: rest) fs = refineStagesAux env b rest fs1 := by
  simp [refineStagesAux, hss]

/-- Whatever its outcome, the stage loop leaves the bootstrap folder alone,
leaves every stage directory it does not visit alone, and touches no
filename other than `batch_{b:03d}.json`. -/
theorem refineStagesAux_frame (env : Env) (b : Nat) :
    ∀ (rest : List Nat) (fs : FS),
      (refineStagesAux env b rest fs).1.propositions = fs.propositions ∧
      (∀ t, t ∉ rest → (refineStagesAux env b rest fs).1.responses t = fs.responses t) ∧
      (∀ t nm, nm ≠ batchFilename b →
        dirGet ((refineStagesAux env b rest fs).1.responses t) nm =
          dirGet (fs.responses t) nm) := by
  intro rest
  induction rest with
  | nil => intro fs; exact ⟨rfl, fun t _ => rfl, fun t nm _ => rfl⟩
  | cons s rest ih =>
    intro fs
    have hframe := stageStep_frame env b s fs
    cases hss : stageStep env b s fs with
    | mk fs1 err =>
      rw [hss] at hframe
      cases err with
      | some e =>
        rw [refineStagesAux_cons_err hss]
        exact ⟨hframe.1,
          fun t ht => hframe.2.1 t (fun hc => ht (hc ▸ List.mem_cons_self _ _)),
          hframe.2.2⟩
      | none =>
        rw [refineStagesAux_cons_ok hss]
        obtain ⟨ihp, ihr, ihn⟩ := ih fs1
        refine ⟨ihp.trans hframe.1, fun t ht => ?_, fun t nm hnm => ?_⟩
        · have ht1 : t ∉ rest := fun hc => ht (List.mem_cons_of_mem _ hc)
          have ht2 : t ≠ s := fun hc => ht (hc ▸ List.mem_cons_self _ _)
          exact (ihr t ht1).trans (hframe.2.1 t ht2)
        · exact (ihn t nm hnm).trans (hframe.2.2 t nm hnm)

/-- The stage loop preserves the no-empty-batch-file invariant. -/
theorem refineStagesAux_noEmpty (env : Env) (b : Nat) :
    ∀ (rest : List Nat) (fs : FS), (∀ s ∈ rest, 1 ≤ s ∧ s ≤ 5) → NoEmptyFS fs →
      NoEmptyFS (refineStagesAux env b rest fs).1 := by
  intro rest
  induction rest with
  | nil => intro fs _ h; exact h
  | cons s rest ih =>
    intro fs hb hfs
    have hb0 := hb s (List.mem_cons_self _ _)
    cases hss : stageStep env b s fs with
    | mk fs1 err =>
      have h1 : NoEmptyFS fs1 := by
        have := @stageStep_noEmpty env b s fs hb0.1 hb0.2 hfs
        rwa [hss] at this
      cases err with
      | some e => rw [refineStagesAux_cons_err hss]; exact h1
      | none =>
        rw [refineStagesAux_cons_ok hss]
        exact ih fs1 (fun t ht => hb t (List.mem_cons_of_mem _ ht)) h1

/-- Running the stage loop over an ascending stage list that contains a
doomed stage `k` always fails, and the terminal directory `responses/5` is
left exactly as it was (a successful write to it could only happen at stage
5, which is never reached past the doomed stage). -/
theorem refineStagesAux_doomed (env : Env) (b k : Nat) {e : PyErr}
    (hsvc : ∀ i v, env.svc b k i v = .error e) :
    ∀ (rest : List Nat) (fs : FS), (∀ s ∈ rest, 1 ≤ s ∧ s ≤ 5) →
      List.Pairwise (· < ·) rest → k ∈ rest → NoEmptyFS fs →
      ∃ e' fs', refineStagesAux env b rest fs = (fs', some e') ∧
        fs'.responses 5 = fs.responses 5 := by
  intro rest
  induction rest with
  | nil => intro fs _ _ hk; exact absurd hk (List.not_mem_nil k)
  | cons s rest ih =>
    intro fs hb hpw hk hfs
    have hb0 := hb s (List.mem_cons_self _ _)
    by_cases hks : s = k
    · subst hks
      obtain ⟨e', hstep⟩ := stageStep_doomed hsvc hb0.1 hb0.2 hfs
      rw [refineStagesAux_cons_err hstep]
      exact ⟨e', fs, rfl, rfl⟩
    · have hk' : k ∈ rest := by
        rcases List.mem_cons.mp hk with h | h
        · exact absurd h.symm hks
        · exact h
      have hsk : s < k := (List.pairwise_cons.mp hpw).1 k hk'
      have hs5 : s ≠ 5 := by
        have hk5 : k ≤ 5 := (hb k (List.mem_cons_of_mem _ hk')).2
        omega
      cases hss : stageStep env b s fs with
      | mk fs1 err =>
        cases err with
        | some e2 =>
          rw [refineStagesAux_cons_err hss]
          have heq := stageStep_err hss
          subst heq
          exact ⟨e2, fs1, rfl, rfl⟩
        | none =>
          rw [refineStagesAux_cons_ok hss]
          obtain ⟨v, out, ht, hmem, hra, hlen, hfs1⟩ := stageStep_ok hss
          have h5 : fs1.responses 5 = fs.responses 5 := by
            rw [hfs1]
            exact Function.update_noteq (Ne.symm hs5) _ _
          have h1 : NoEmptyFS fs1 := by
            have := @stageStep_noEmpty env b s fs hb0.1 hb0.2 hfs
            rwa [hss] at this
          obtain ⟨e', fs', hrec, h5'⟩ :=
            ih fs1 (fun t ht' => hb t (List.mem_cons_of_mem _ ht'))
              (List.Pairwise.of_cons hpw) hk' h1
          exact ⟨e', fs', hrec, h5'.trans h5⟩

/-- After a fully successful stage loop, every visited stage directory
holds the batch's file `batch_{b:03d}.json` (as a sequence). -/
theorem refineStagesAux_present (env : Env) (b : Nat) :
    ∀ (rest : List Nat) (fs fs' : FS), refineStagesAux env b rest fs = (fs', none) →
      ∀ s ∈ rest, ∃ out, dirGet (fs'.responses s) (batchFilename b) = some (.arr out) := by
  intro rest
  induction rest with
  | nil => intro fs fs' h s hs; exact absurd hs (List.not_mem_nil s)
  | cons s0 rest ih =>
    intro fs fs' h s hs
    cases hss : stageStep env b s0 fs with
    | mk fs1 err =>
      cases err with
      | some e =>
        rw [refineStagesAux_cons_err hss] at h
        simp at h
      | none =>
        rw [refineStagesAux_cons_ok hss] at h
        rcases List.mem_cons.mp hs with rfl | hs'
        · by_cases hsr : s ∈ rest
          · exact ih fs1 fs' h s hsr
          · obtain ⟨v, out, ht, hmem, hra, hlen, hfs1⟩ := stageStep_ok hss
            have hcur : dirGet (fs1.responses s) (batchFilename b) = some (.arr out) := by
              rw [hfs1]
              show dirGet (Function.update fs.responses s _ s) _ = _
              rw [Function.update_same]
              exact dirGet_dirInsert_self _ _ _
            have hfr := (refineStagesAux_frame env b rest fs1).2.1 s hsr
            rw [h] at hfr
            exact ⟨out, by rw [show fs'.responses s = fs1.responses s from hfr]; exact hcur⟩
        · exact ih fs1 fs' h s hs'

/-! ### Lemmas about batch generation and one control-loop iteration -/

theorem genItems_length {env : Env} {b : Nat} :
    ∀ {k i : Nat} {out : List JsonVal}, genItems env b k i = .ok out → out.length = k := by
  intro k
  induction k with
  | zero =>
    intro i out h
    simp [genItems] at h
    simp [← h]
  | succ k ih =>
    intro i out h
    cases hg : env.genItem b i with
    | error e => simp [genItems, hg] at h
    | ok result =>
      cases hd : jget result "domain" with
      | error e => simp [genItems, hg, hd] at h
      | ok dv =>
        cases hp : jget result "proposition" with
        | error e => simp [genItems, hg, hd, hp] at h
        | ok pv =>
          cases hrest : genItems env b k (i + 1) with
          | error e => simp [genItems, hg, hd, hp, hrest] at h
          | ok rest =>
            simp only [genItems, hg, hd, hp, hrest, Except.ok.injEq] at h
            simp [← h, ih hrest]

theorem genItems_err_first {env : Env} {b : Nat} {e : PyErr}
    (h : env.genItem b 0 = .error e) :
    ∀ k, 1 ≤ k → genItems env b k 0 = .error e := by
  intro k hk
  cases k with
  | zero => omega
  | succ k' => simp [genItems, h]

theorem generate_batch_err {cfg : Config} {env : Env} {b : Nat} {fs fs1 : FS} {e : PyErr}
    (h : generate_batch cfg env b fs = (fs1, some e)) :
    fs1 = fs ∧ genItems env b cfg.batchSize 0 = .error e := by
  unfold generate_batch at h
  cases hg : genItems env b cfg.batchSize 0 with
  | error e' =>
    rw [hg] at h
    simp only [Prod.mk.injEq, Option.some.injEq] at h
    exact ⟨h.1.symm, by rw [h.2]⟩
  | ok props =>
    rw [hg] at h
    simp at h

theorem generate_batch_ok {cfg : Config} {env : Env} {b : Nat} {fs fs1 : FS}
    (h : generate_batch cfg env b fs = (fs1, none)) :
    ∃ props, genItems env b cfg.batchSize 0 = .ok props ∧
      props.length = cfg.batchSize ∧
      fs1 = { fs with propositions :=
        (dirInsert fs.propositions (batchFilename b) (.arr props)) } := by
  unfold generate_batch at h
  cases hg : genItems env b cfg.batchSize 0 with
  | error e => rw [hg] at h; simp at h
  | ok props =>
    rw [hg] at h
    simp only [Prod.mk.injEq] at h
    exact ⟨props, rfl, genItems_length hg, h.1.symm⟩

/-- Whatever its outcome, one control-loop iteration for batch `b` touches
no filename other than `batch_{b:03d}.json`, in any directory. -/
theorem runIteration_frame (cfg : Config) (env : Env) (b : Nat) (fs : FS) :
    (∀ nm, nm ≠ batchFilename b →
      dirGet (runIteration cfg env b fs).1.propositions nm = dirGet fs.propositions nm) ∧
    (∀ t nm, nm ≠ batchFilename b →
      dirGet ((runIteration cfg env b fs).1.responses t) nm = dirGet (fs.responses t) nm) := by
  unfold runIteration
  cases hg : generate_batch cfg env b fs with
  | mk fs1 err =>
    cases err with
    | some e =>
      rw [(generate_batch_err hg).1]
      exact ⟨fun nm _ => rfl, fun t nm _ => rfl⟩
    | none =>
      obtain ⟨props, hgen, hpl, hfs1⟩ := generate_batch_ok hg
      obtain ⟨hp, hr, hn⟩ := refineStagesAux_frame env b (List.range' 1 5) fs1
      refine ⟨fun nm hnm => ?_, fun t nm hnm => ?_⟩
      · show dirGet (refine_batch_through_stages env b fs1).1.propositions nm = _
        unfold refine_batch_through_stages
        rw [hp, hfs1]
        exact dirGet_dirInsert_ne _ _ nm _ hnm
      · show dirGet ((refine_batch_through_stages env b fs1).1.responses t) nm = _
        unfold refine_batch_through_stages
        rw [hn t nm hnm, hfs1]

/-- One control-loop iteration preserves the no-empty-batch-file invariant
(every file it writes holds at least `batch_size ≥ 1` items). -/
theorem runIteration_noEmpty (cfg : Config) (env : Env) (b : Nat) (fs : FS)
    (hbs : 1 ≤ cfg.batchSize) (hfs : NoEmptyFS fs) :
    NoEmptyFS (runIteration cfg env b fs).1 := by
  unfold runIteration
  cases hg : generate_batch cfg env b fs with
  | mk fs1 err =>
    cases err with
    | some e => rw [(generate_batch_err hg).1]; exact hfs
    | none =>
      obtain ⟨props, hgen, hpl, hfs1⟩ := generate_batch_ok hg
      have h1 : NoEmptyFS fs1 := by
        rw [hfs1]
        refine ⟨noEmptyDir_dirInsert hfs.1 ?_, hfs.2⟩
        cases props with
        | nil => rw [List.length_nil] at hpl; omega
        | cons p ps => rfl
      show NoEmptyFS (refine_batch_through_stages env b fs1).1
      unfold refine_batch_through_stages
      exact refineStagesAux_noEmpty env b _ fs1
        (fun s hs => by
          have hs' : s ∈ ([1, 2, 3, 4, 5] : List Nat) := hs
          simp at hs'
          omega)
        h1

/-- A doomed batch's iteration always fails, leaving the terminal stage
directory untouched and the invariant intact. -/
theorem runIteration_doomed (cfg : Config) (env : Env) (b : Nat) (fs : FS)
    (hd : BatchDoomed env b) (hbs : 1 ≤ cfg.batchSize) (hfs : NoEmptyFS fs) :
    ∃ e fs1, runIteration cfg env b fs = (fs1, some e) ∧
      fs1.responses 5 = fs.responses 5 ∧ NoEmptyFS fs1 := by
  rcases hd with ⟨e, hgen⟩ | ⟨k, e, hk1, hk5, hsvc⟩
  · have hgg : genItems env b cfg.batchSize 0 = .error e :=
      genItems_err_first hgen cfg.batchSize hbs
    unfold runIteration generate_batch
    rw [hgg]
    exact ⟨e, fs, rfl, rfl, hfs⟩
  · unfold runIteration
    cases hg : generate_batch cfg env b fs with
    | mk fs1 err =>
      cases err with
      | some e2 =>
        have heq := (generate_batch_err hg).1
        subst heq
        exact ⟨e2, fs1, rfl, rfl, hfs⟩
      | none =>
        obtain ⟨props, hgen2, hpl, hfs1⟩ := generate_batch_ok hg
        have h1 : NoEmptyFS fs1 := by
          rw [hfs1]
          refine ⟨noEmptyDir_dirInsert hfs.1 ?_, hfs.2⟩
          cases props with
          | nil => rw [List.length_nil] at hpl; omega
          | cons p ps => rfl
        have hb5 : ∀ s ∈ List.range' 1 5, 1 ≤ s ∧ s ≤ 5 := by
          intro s hs
          have hs' : s ∈ ([1, 2, 3, 4, 5] : List Nat) := hs
          simp at hs'
          omega
        obtain ⟨e', fs', hrec, h5'⟩ :=
          refineStagesAux_doomed env b k hsvc (List.range' 1 5) fs1 hb5
            (by decide)
            (show k ∈ List.range' 1 5 from by
              have : k ∈ ([1, 2, 3, 4, 5] : List Nat) := by simp; omega
              exact this)
            h1
        have hne' : NoEmptyFS fs' := by
          have := refineStagesAux_noEmpty env b (List.range' 1 5) fs1 hb5 h1
          rwa [hrec] at this
        have h5 : fs1.responses 5 = fs.responses 5 := by rw [hfs1]
        exact ⟨e', fs', hrec, h5'.trans h5, hne'⟩

/-! ### Reduction lemmas for the control loop -/

theorem runLoop_step_ok {cfg : Config} {env : Env} {fuel : Nat} {fs fs1 : FS} {b c : Nat}
    (hc : c < cfg.targetTotal) (hit : runIteration cfg env b fs = (fs1, none)) :
    runLoop cfg env (fuel + 1) fs b c =
      ((runLoop cfg env fuel fs1 (b + 1) (count_completed_propositions fs1)).1,
       .attempt b :: .batchOk b ::
         (runLoop cfg env fuel fs1 (b + 1) (count_completed_propositions fs1)).2.1,
       (runLoop cfg env fuel fs1 (b + 1) (count_completed_propositions fs1)).2.2) := by
  rw [runLoop, if_pos hc, hit]

theorem runLoop_step_err {cfg : Config} {env : Env} {fuel : Nat} {fs fs1 : FS} {b c : Nat}
    {e : PyErr} (hc : c < cfg.targetTotal) (hit : runIteration cfg env b fs = (fs1, some e)) :
    runLoop cfg env (fuel + 1) fs b c =
      ((runLoop cfg env fuel fs1 (b + 1) c).1,
       .attempt b :: .failLog b :: (runLoop cfg env fuel fs1 (b + 1) c).2.1,
       (runLoop cfg env fuel fs1 (b + 1) c).2.2) := by
  rw [runLoop, if_pos hc, hit]

theorem runLoop_done {cfg : Config} {env : Env} {fuel : Nat} {fs : FS} {b c : Nat}
    (hc : ¬c < cfg.targetTotal) :
    runLoop cfg env (fuel + 1) fs b c = (fs, [], .done) := by
  rw [runLoop, if_neg hc]

/-- Run-level quarantine: when the environment condemns batch `b`, the file
`batch_{b:03d}.json` never appears in the terminal directory `responses/5`
during the whole control loop, no matter where the loop starts: other
batches write only their own filenames (`batchFilename` is injective), and
batch `b`'s own iteration always fails before the stage-5 write. -/
theorem runLoop_absent (cfg : Config) (env : Env) (b : Nat)
    (hd : BatchDoomed env b) (hbs : 1 ≤ cfg.batchSize) :
    ∀ (fuel : Nat) (fs : FS) (b0 c : Nat), NoEmptyFS fs →
      dirGet (fs.responses 5) (batchFilename b) = none →
      dirGet ((runLoop cfg env fuel fs b0 c).1.responses 5) (batchFilename b) = none := by
  intro fuel
  induction fuel with
  | zero => intro fs b0 c _ habs; exact habs
  | succ fuel ih =>
    intro fs b0 c hfs habs
    by_cases hc : c < cfg.targetTotal
    · by_cases hb0 : b0 = b
      · subst hb0
        obtain ⟨e, fs1, hit, h5, hne1⟩ := runIteration_doomed cfg env b0 fs hd hbs hfs
        rw [runLoop_step_err hc hit]
        apply ih fs1 (b0 + 1) c hne1
        rw [h5]
        exact habs
      · cases hit : runIteration cfg env b0 fs with
        | mk fs1 err =>
          have hne1 : NoEmptyFS fs1 := by
            have := runIteration_noEmpty cfg env b0 fs hbs hfs
            rwa [hit] at this
          have habs1 : dirGet (fs1.responses 5) (batchFilename b) = none := by
            have hframe := (runIteration_frame cfg env b0 fs).2 5 (batchFilename b)
              (fun hcc => hb0 (batchFilename_inj hcc).symm)
            rw [hit] at hframe
            exact hframe.trans habs
          cases err with
          | none =>
            rw [runLoop_step_ok hc hit]
            exact ih fs1 (b0 + 1) _ hne1 habs1
          | some e =>
            rw [runLoop_step_err hc hit]
            exact ih fs1 (b0 + 1) c hne1 habs1
    · rw [runLoop_done hc]
      exact habs

/-- C2 — Failure isolation: when the environment condemns batch `b`
(generation fails, or some refinement stage fails on every remote call for
that batch), then (i) whenever the control loop reaches batch `b` with the
target not yet met, its iteration fails: the loop logs the failure and
continues with batch id `b + 1` (with the same stale progress count)
instead of terminating, the failed iteration leaves `responses/5` exactly
as it was, and it touches no file of any other batch in any directory; and
(ii) over an entire run from any starting point, `batch_{b:03d}.json` never
appears in the terminal directory `responses/5` (so batch `b` is never
counted as progress), while batches processed before and after `b` are
unaffected by `b`'s failure (their files are untouched by `b`'s iteration,
by (i)).  `NoEmptyFS` excludes degenerate pre-existing empty batch files;
it holds for every state the pipeline itself produces. -/
theorem c2_failure_isolation (cfg : Config) (env : Env) (b : Nat)
    (hd : BatchDoomed env b) (hbs : 1 ≤ cfg.batchSize) :
    (∀ (fs : FS) (f c : Nat), NoEmptyFS fs → c < cfg.targetTotal →
      ∃ e fs1, runIteration cfg env b fs = (fs1, some e) ∧
        runLoop cfg env (f + 1) fs b c =
          ((runLoop cfg env f fs1 (b + 1) c).1,
           .attempt b :: .failLog b :: (runLoop cfg env f fs1 (b + 1) c).2.1,
           (runLoop cfg env f fs1 (b + 1) c).2.2) ∧
        fs1.responses 5 = fs.responses 5 ∧
        (∀ t nm, nm ≠ batchFilename b →
          dirGet (fs1.responses t) nm = dirGet (fs.responses t) nm) ∧
        (∀ nm, nm ≠ batchFilename b →
          dirGet fs1.propositions nm = dirGet fs.propositions nm)) ∧
    (∀ (fuel : Nat) (fs : FS) (b0 c : Nat), NoEmptyFS fs →
      dirGet (fs.responses 5) (batchFilename b) = none →
      dirGet ((runLoop cfg env fuel fs b0 c).1.responses 5) (batchFilename b) = none) := by
  constructor
  · intro fs f c hfs hc
    obtain ⟨e, fs1, hit, h5, hne1⟩ := runIteration_doomed cfg env b fs hd hbs hfs
    refine ⟨e, fs1, hit, runLoop_step_err hc hit, h5, ?_, ?_⟩
    · intro t nm hnm
      have hframe := (runIteration_frame cfg env b fs).2 t nm hnm
      rw [hit] at hframe
      exact hframe
    · intro nm hnm
      have hframe := (runIteration_frame cfg env b fs).1 nm hnm
      rw [hit] at hframe
      exact hframe
  · exact runLoop_absent cfg env b hd hbs

/-- Fixture for the C2 witness: everything generates, every refinement
call fails. -/
def envD : Env :=
  { genItem := fun _ _ => .ok itemA, svc := fun _ _ _ _ => .error (.remoteFailure 0) }

/-- Fixture: the configuration of the C2 witness. -/
def cfg2 : Config := { batchSize := 1, targetTotal := 1 }

/-- Witness for C2: with every stage-1 call failing, batch 1 is doomed;
the instantiated conclusions of `c2_failure_isolation` hold. -/
theorem c2_witness :
    (∀ (fs : FS) (f c : Nat), NoEmptyFS fs → c < cfg2.targetTotal →
      ∃ e fs1, runIteration cfg2 envD 1 fs = (fs1, some e) ∧
        runLoop cfg2 envD (f + 1) fs 1 c =
          ((runLoop cfg2 envD f fs1 2 c).1,
           .attempt 1 :: .failLog 1 :: (runLoop cfg2 envD f fs1 2 c).2.1,
           (runLoop cfg2 envD f fs1 2 c).2.2) ∧
        fs1.responses 5 = fs.responses 5 ∧
        (∀ t nm, nm ≠ batchFilename 1 →
          dirGet (fs1.responses t) nm = dirGet (fs.responses t) nm) ∧
        (∀ nm, nm ≠ batchFilename 1 →
          dirGet fs1.propositions nm = dirGet fs.propositions nm)) ∧
    (∀ (fuel : Nat) (fs : FS) (b0 c : Nat), NoEmptyFS fs →
      dirGet (fs.responses 5) (batchFilename 1) = none →
      dirGet ((runLoop cfg2 envD fuel fs b0 c).1.responses 5) (batchFilename 1) = none) :=
  c2_failure_isolation cfg2 envD 1
    (Or.inr ⟨1, .remoteFailure 0, by decide, by decide, fun i v => rfl⟩)
    (by decide)

/-! ### C6: filename stability -/

/-- C6 — Filename stability: the stage runner (`refine_batch`) always
writes its output under the filename of the input folder's (first) batch
file; consequently, after a successful control-loop iteration for batch
`b` — whose bootstrap file is written as `batch_{b:03d}.json` and whose
per-stage temporary folders carry exactly that name — the file
`batch_{b:03d}.json` is present in the bootstrap directory and in every
one of the five stage directories it passed through. -/
theorem c6_filename_stability (cfg : Config) (env : Env) (b : Nat) (fs : FS)
    (h : (runIteration cfg env b fs).2 = none) :
    (∀ (call : Nat → JsonVal → Except PyErr String) (inp : Dir) (nmF : String)
        (outD d : Dir) (n : Nat), refine_batch call inp nmF outD = .ok (d, n) →
      ∃ f rest refined, jsonFiles inp = f :: rest ∧ d = saveBatch outD f.1 refined) ∧
    (∃ v, dirGet (runIteration cfg env b fs).1.propositions (batchFilename b) = some v) ∧
    (∀ s, 1 ≤ s → s ≤ 5 →
      ∃ out, dirGet ((runIteration cfg env b fs).1.responses s) (batchFilename b) =
        some (.arr out)) := by
  refine ⟨?_, ?_⟩
  · intro call inp nmF outD d n hrb
    obtain ⟨props, refined, f, rest, _, _, _, _, hjf, hdd⟩ := refine_batch_ok hrb
    exact ⟨f, rest, refined, hjf, hdd⟩
  · unfold runIteration at h ⊢
    cases hg : generate_batch cfg env b fs with
    | mk fs1 err =>
      cases err with
      | some e => simp [hg] at h
      | none =>
        obtain ⟨props, hgen, hpl, hfs1⟩ := generate_batch_ok hg
        cases hstage : refine_batch_through_stages env b fs1 with
        | mk fs' err2 =>
          cases err2 with
          | some e => simp [hg, hstage] at h
          | none =>
            dsimp only
            rw [hstage]
            unfold refine_batch_through_stages at hstage
            constructor
            · have hp := (refineStagesAux_frame env b (List.range' 1 5) fs1).1
              rw [hstage] at hp
              refine ⟨.arr props, ?_⟩
              show dirGet fs'.propositions (batchFilename b) = _
              rw [show fs'.propositions = fs1.propositions from hp, hfs1]
              exact dirGet_dirInsert_self _ _ _
            · intro s hs1 hs5
              apply refineStagesAux_present env b (List.range' 1 5) fs1 fs' hstage
              show s ∈ ([1, 2, 3, 4, 5] : List Nat)
              simp
              omega

/-- Fixture for the C6 witness: empty directories. -/
def fsE : FS := { propositions := [], responses := fun _ => [] }

/-- Witness for C6: a fully successful iteration of batch 1 over empty
directories; the batch's filename is present everywhere. -/
theorem c6_witness :
    (∀ (call : Nat → JsonVal → Except PyErr String) (inp : Dir) (nmF : String)
        (outD d : Dir) (n : Nat), refine_batch call inp nmF outD = .ok (d, n) →
      ∃ f rest refined, jsonFiles inp = f :: rest ∧ d = saveBatch outD f.1 refined) ∧
    (∃ v, dirGet (runIteration cfg9 env9 1 fsE).1.propositions (batchFilename 1) = some v) ∧
    (∀ s, 1 ≤ s → s ≤ 5 →
      ∃ out, dirGet ((runIteration cfg9 env9 1 fsE).1.responses s) (batchFilename 1) =
        some (.arr out)) :=
  c6_filename_stability cfg9 env9 1 fsE (by decide)

end LingEvo
